import Mathlib

/-!
Verification development for the fiducial-phantom registration notebooks
(uw-loci/US-Microscopy-fiducial-phantom).

The analytical core of the repository is the cell of function definitions in
the analysis notebook: `open_us`, `open_mpm`, `rotate_axes_to_microscope`,
`positions_from_ometif`, `get_xy_origin` and `apply_transform`.  These are
embedded below.  Voxel intensities, spacings, origins and stage positions are
modelled as exact rationals; machine floating point is idealised away, as the
properties under study are algebraic.  External collaborators (SimpleITK's
image reader, resampler and versor transform, the multiscale package's
windowing and position-list cleaning) are modelled from their documented
semantics; each such definition says so in its doc comment.
-/

namespace Phantom

/-- A 3-dimensional numpy-style voxel array.  The three extents are explicit
and the payload is a total function on indices; only indices below the
extents are meaningful. -/
structure Arr3 where
  d0 : ℕ
  d1 : ℕ
  d2 : ℕ
  val : ℕ → ℕ → ℕ → ℚ

/-- Truncation of a rational toward zero, the rounding used by the C (and
numpy) float-to-integer cast. -/
def qtrunc (v : ℚ) : ℤ := if 0 ≤ v then ⌊v⌋ else ⌈v⌉

/-- Cast of one voxel value to an unsigned 8-bit integer: truncate toward
zero, then wrap modulo 256, as numpy's astype(np.uint8) does on
out-of-range values. -/
def toUint8 (v : ℚ) : ℚ := (((qtrunc v).emod 256 : ℤ) : ℚ)

/-- Embeds numpy's swapaxes(arr, 0, 1): exchanges the first two axes. -/
def np_swapaxes01 (a : Arr3) : Arr3 :=
  ⟨a.d1, a.d0, a.d2, fun i j k => a.val j i k⟩

/-- Embeds numpy's flip(arr, 0): reverses the order of entries along the
first axis. -/
def np_flip0 (a : Arr3) : Arr3 :=
  ⟨a.d0, a.d1, a.d2, fun i j k => a.val (a.d0 - 1 - i) j k⟩

/-- Embeds astype(np.uint8) applied elementwise to a voxel array. -/
def astype_uint8 (a : Arr3) : Arr3 :=
  ⟨a.d0, a.d1, a.d2, fun i j k => toUint8 (a.val i j k)⟩

/-- Array part of the source's rotate_axes_to_microscope: swapaxes(arr, 0, 1),
then flip(.., 0), then astype(np.uint8), exactly in the source's order. -/
def rotate_axes_arr (a : Arr3) : Arr3 :=
  astype_uint8 (np_flip0 (np_swapaxes01 a))

/-- A rational is an unsigned 8-bit value: a natural number below 256. -/
def IsUint8Val (v : ℚ) : Prop := ∃ n : ℕ, n < 256 ∧ v = (n : ℚ)

theorem qtrunc_intCast (n : ℤ) : qtrunc (n : ℚ) = n := by
  unfold qtrunc
  split <;> simp

theorem toUint8_isUint8 (v : ℚ) : IsUint8Val (toUint8 v) := by
  refine ⟨((qtrunc v).emod 256).toNat, ?_, ?_⟩
  · have h1 : (qtrunc v).emod 256 < 256 := Int.emod_lt_of_pos _ (by norm_num)
    omega
  · have h0 : 0 ≤ (qtrunc v).emod 256 := Int.emod_nonneg _ (by norm_num)
    unfold toUint8
    norm_cast
    omega

theorem toUint8_of_isUint8 {v : ℚ} (h : IsUint8Val v) : toUint8 v = v := by
  obtain ⟨n, hn, rfl⟩ := h
  unfold toUint8
  have h1 : qtrunc ((n : ℤ) : ℚ) = (n : ℤ) := qtrunc_intCast n
  have h2 : ((n : ℤ)).emod 256 = (n : ℤ) :=
    Int.emod_eq_of_lt (by positivity) (by exact_mod_cast hn)
  push_cast at h1
  rw [h1, h2]
  norm_cast

theorem toUint8_idem (v : ℚ) : toUint8 (toUint8 v) = toUint8 v :=
  toUint8_of_isUint8 (toUint8_isUint8 v)

theorem rotate_axes_arr_val (a : Arr3) (i j k : ℕ) :
    (rotate_axes_arr a).val i j k = toUint8 (a.val j (a.d1 - 1 - i) k) := rfl

theorem rotate_axes_arr_dims (a : Arr3) :
    (rotate_axes_arr a).d0 = a.d1 ∧ (rotate_axes_arr a).d1 = a.d0 ∧
      (rotate_axes_arr a).d2 = a.d2 :=
  ⟨rfl, rfl, rfl⟩

/-- A SimpleITK-style image: voxel array plus physical metadata.  The
direction cosine matrix is stored as a 3 x 3 rational matrix (the source
passes it to SetDirection as the row-major list [1,0,0,0,1,0,0,0,-1]); the
pixelID field records the pixel sample type as a SimpleITK enum code. -/
structure Image where
  arr : Arr3
  spacing : ℚ × ℚ × ℚ
  origin : ℚ × ℚ × ℚ
  direction : Matrix (Fin 3) (Fin 3) ℚ
  pixelID : ℕ

/-- SimpleITK pixel-type code for unsigned 8-bit integers (sitkUInt8). -/
def sitkUInt8 : ℕ := 1

/-- Embeds sitk.GetArrayFromImage: the voxel payload, metadata dropped. -/
def GetArrayFromImage (img : Image) : Arr3 := img.arr

/-- Embeds sitk.GetImageFromArray: wraps a voxel array in a fresh image with
default metadata (unit spacing, zero origin, identity direction); for a
uint8 array the pixel type is sitkUInt8. -/
def GetImageFromArray (a : Arr3) : Image :=
  ⟨a, (1, 1, 1), (0, 0, 0), 1, sitkUInt8⟩

/-- The fixed direction cosine matrix both construction paths install: the
row-major list [1, 0, 0, 0, 1, 0, 0, 0, -1], i.e. diag(1, 1, -1). -/
def zMirror : Matrix (Fin 3) (Fin 3) ℚ := !![1, 0, 0; 0, 1, 0; 0, 0, -1]

/-- Modelled from the spec: proc.window_image lives in the external
multiscale package (the notebook only calls it), and the spec says only that
the ultrasound image is windowed to a dynamic range.  It is therefore
modelled as an arbitrary per-voxel intensity map, supplied as a parameter,
that leaves the geometry untouched. -/
def window_image (wf : ℚ → ℚ) (img : Image) : Image :=
  { img with arr := ⟨img.arr.d0, img.arr.d1, img.arr.d2,
      fun i j k => wf (img.arr.val i j k)⟩ }

/-- Embeds rotate_axes_to_microscope: GetArrayFromImage, swap axes 0 and 1,
flip axis 0, astype(np.uint8), GetImageFromArray.  Note that
sitk.GetImageFromArray drops the input image's spacing, origin and direction
(the callers re-set them afterwards). -/
def rotate_axes_to_microscope (image : Image) : Image :=
  GetImageFromArray (rotate_axes_arr (GetArrayFromImage image))

/-- Embeds open_us: the file read is replaced by the already-read raw image
and the windowing step by a window map wf (see window_image).  The windowed
image is rotated to microscope axes, then the supplied spacing and origin
and the fixed Z-mirror direction are installed, in the source's order. -/
def open_us (raw : Image) (wf : ℚ → ℚ) (spacing origin : ℚ × ℚ × ℚ) : Image :=
  let windowed_image := window_image wf raw
  let us_image := rotate_axes_to_microscope windowed_image
  { us_image with spacing := spacing, origin := origin, direction := zMirror }

/-- One Plane entry of an OME-XML Pixels element; PositionZ may be missing. -/
structure OmePlane where
  PositionZ : Option ℚ

/-- StageLabel element of an OME-XML Image entry; X or Y may be missing. -/
structure OmeStageLabel where
  X : Option ℚ
  Y : Option ℚ

/-- One Image element of an OME-XML descriptor as xml2dict delivers it; any
expected field may be missing.  Planes stands for the Pixels -> Plane chain;
a missing Pixels or Plane key both collapse to none. -/
structure OmeImage where
  StageLabel : Option OmeStageLabel
  Planes : Option (List OmePlane)

/-- Field access for one OME Image entry, following the source's lookups
position['StageLabel']['X'], ['StageLabel']['Y'],
position['Pixels']['Plane'][0]['PositionZ'].  A missing key (or an empty
Plane list) is the Python KeyError/IndexError, modelled as Except.error. -/
def omePosition (position : OmeImage) : Except String (ℚ × ℚ × ℚ) :=
  match position.StageLabel with
  | none => .error "KeyError: StageLabel"
  | some sl =>
    match sl.X with
    | none => .error "KeyError: X"
    | some x =>
      match sl.Y with
      | none => .error "KeyError: Y"
      | some y =>
        match position.Planes with
        | none => .error "KeyError: Pixels or Plane"
        | some [] => .error "IndexError: Plane list is empty"
        | some (plane0 :: _) =>
          match plane0.PositionZ with
          | none => .error "KeyError: PositionZ"
          | some z => .ok (x, y, z)

/-- Embeds positions_from_ometif: iterates over info['OME']['Image'],
collecting each tile's (x, y, z); the first missing field aborts the whole
computation with its error, as the Python exception does (no entry list is
returned at all). -/
def positions_from_ometif (imgs : List OmeImage) :
    Except String (List (ℚ × ℚ × ℚ)) :=
  match imgs with
  | [] => .ok []
  | position :: rest =>
    match omePosition position, positions_from_ometif rest with
    | .error e, _ => .error e
    | .ok _, .error e => .error e
    | .ok x, .ok xs => .ok (x :: xs)

/-- Component-wise minimum of two 3-component rows, the reduction step of
np.min(.., 0). -/
def minRow3 (a q : ℚ × ℚ × ℚ) : ℚ × ℚ × ℚ :=
  (min a.1 q.1, min a.2.1 q.2.1, min a.2.2 q.2.2)

/-- Embeds np.min(positions, 0) on 3-component rows: the component-wise
minimum; numpy raises ValueError on an empty array, modelled as
Except.error. -/
def np_min3 (l : List (ℚ × ℚ × ℚ)) : Except String (ℚ × ℚ × ℚ) :=
  match l with
  | [] => .error "ValueError: zero-size array to reduction operation"
  | p :: r => .ok (r.foldl minRow3 p)

/-- Embeds open_mpm: the tile positions come from the OME descriptor of the
first tile (the file read and xml2dict are replaced by the already-parsed
list of OME Image entries), the origin is their component-wise minimum, and
the raw microscopy image gets the supplied spacing, that origin and the
fixed Z-mirror direction. -/
def open_mpm (raw : Image) (ome : List OmeImage) (mpm_spacing : ℚ × ℚ × ℚ) :
    Except String Image :=
  match positions_from_ometif ome with
  | .error e => .error e
  | .ok positions =>
    match np_min3 positions with
    | .error e => .error e
    | .ok origin =>
      .ok { raw with
              spacing := mpm_spacing
              origin := origin
              direction := zMirror }

/-- A raw ultrasound position-list entry: either a numeric (x, y) stage
position or a malformed (non-numeric) entry. -/
inductive PosEntry where
  | num (x y : ℚ) : PosEntry
  | malformed : PosEntry

/-- Modelled from the spec: recon.clean_position_text lives in the external
multiscale package (the notebook only calls it); per the spec's contract it
strips any malformed/non-numeric entries while parsing the position log into
(x, y) pairs.  The source indexes its result with [0], the cleaned pair
list. -/
def clean_position_text (l : List PosEntry) : List (ℚ × ℚ) :=
  l.filterMap (fun e => match e with
    | .num x y => some (x, y)
    | .malformed => none)

/-- Component-wise minimum of two (x, y) rows, the reduction step of
np.min(.., 0). -/
def minRow2 (a q : ℚ × ℚ) : ℚ × ℚ := (min a.1 q.1, min a.2 q.2)

/-- Embeds np.min(pos_list, 0) on (x, y) rows: component-wise minimum;
ValueError on an empty array. -/
def np_min2 (l : List (ℚ × ℚ)) : Except String (ℚ × ℚ) :=
  match l with
  | [] => .error "ValueError: zero-size array to reduction operation"
  | p :: r => .ok (r.foldl minRow2 p)

/-- Embeds get_xy_origin: the JSON read is replaced by the already-read raw
entry list; the cleaning step strips malformed entries and the origin is the
component-wise minimum of what remains. -/
def get_xy_origin (raw_pos_list : List PosEntry) : Except String (ℚ × ℚ) :=
  np_min2 (clean_position_text raw_pos_list)

/-- Versor rotation of a quaternion: conjugation x -> q x q*, the action a
versor induces; for unit q and pure-imaginary x this is the 3-D rotation the
versor encodes. -/
def versorRot (q x : Quaternion ℚ) : Quaternion ℚ := q * x * star q

/-- Action of a 6-parameter versor rigid transform with rotation versor q
and translation t (centre at the origin, ITK's default): x -> q x q* + t. -/
def versorRigidApply (q t x : Quaternion ℚ) : Quaternion ℚ := versorRot q x + t

/-- Action of the transform built from the negated parameter vector
-1 * coordinate_transform: the three stored versor components are negated —
for a unit versor that is exactly the conjugate star q, the implicit scalar
part being recomputed unchanged — and the translation is negated. -/
def negatedParamsApply (q t x : Quaternion ℚ) : Quaternion ℚ :=
  versorRot (star q) x + -t

/-- Action of the true mathematical inverse of the rigid transform (q, t):
y -> q* (y - t) q, i.e. the inverse rotation composed with the translation
-(R⁻¹ t). -/
def trueInverseApply (q t x : Quaternion ℚ) : Quaternion ℚ :=
  versorRot (star q) (x - t)

/-- Parameters of sitk.VersorRigid3DTransform: the versor's three vector
components and the translation, the six entries of the parameter vector.
The versor's scalar part w is implicit in ITK (recovered from the unit-norm
constraint); rationals have no square root, so it is carried explicitly here
and the constraint w^2 + vx^2 + vy^2 + vz^2 = 1 appears as a hypothesis
where a theorem needs it. -/
structure VersorRigidParams where
  vx : ℚ
  vy : ℚ
  vz : ℚ
  w : ℚ
  tx : ℚ
  ty : ℚ
  tz : ℚ

/-- The rotation versor of a parameter vector as a quaternion. -/
def quatOf (p : VersorRigidParams) : Quaternion ℚ := ⟨p.w, p.vx, p.vy, p.vz⟩

/-- Action of a versor rigid transform on a physical 3-D point, by
conjugating the point (as a pure quaternion) with the versor and adding the
translation. -/
def transformPoint (p : VersorRigidParams) (pt : ℚ × ℚ × ℚ) : ℚ × ℚ × ℚ :=
  let x : Quaternion ℚ := ⟨0, pt.1, pt.2.1, pt.2.2⟩
  let r := versorRot (quatOf p) x
  (r.imI + p.tx, r.imJ + p.ty, r.imK + p.tz)

/-- Action of a 3 x 3 matrix on a 3-component column vector. -/
def mat3vec (M : Matrix (Fin 3) (Fin 3) ℚ) (v : ℚ × ℚ × ℚ) : ℚ × ℚ × ℚ :=
  (M 0 0 * v.1 + M 0 1 * v.2.1 + M 0 2 * v.2.2,
   M 1 0 * v.1 + M 1 1 * v.2.1 + M 1 2 * v.2.2,
   M 2 0 * v.1 + M 2 1 * v.2.1 + M 2 2 * v.2.2)

/-- Determinant of a 3 x 3 matrix, written out so it evaluates. -/
def det3 (M : Matrix (Fin 3) (Fin 3) ℚ) : ℚ :=
  M 0 0 * (M 1 1 * M 2 2 - M 1 2 * M 2 1)
    - M 0 1 * (M 1 0 * M 2 2 - M 1 2 * M 2 0)
    + M 0 2 * (M 1 0 * M 2 1 - M 1 1 * M 2 0)

/-- Inverse of a 3 x 3 matrix by the adjugate formula, written out so it
evaluates (a singular matrix yields junk, as its inverse is never used). -/
def inv3 (M : Matrix (Fin 3) (Fin 3) ℚ) : Matrix (Fin 3) (Fin 3) ℚ :=
  (det3 M)⁻¹ •
    !![M 1 1 * M 2 2 - M 1 2 * M 2 1, M 0 2 * M 2 1 - M 0 1 * M 2 2,
         M 0 1 * M 1 2 - M 0 2 * M 1 1;
       M 1 2 * M 2 0 - M 1 0 * M 2 2, M 0 0 * M 2 2 - M 0 2 * M 2 0,
         M 0 2 * M 1 0 - M 0 0 * M 1 2;
       M 1 0 * M 2 1 - M 1 1 * M 2 0, M 0 1 * M 2 0 - M 0 0 * M 2 1,
         M 0 0 * M 1 1 - M 0 1 * M 1 0]

/-- Physical position of the voxel with index (i, j, k) in an image:
origin + D (spacing * index), ITK's index-to-physical-point map. -/
def physPoint (img : Image) (i j k : ℕ) : ℚ × ℚ × ℚ :=
  let s := img.spacing
  let d := mat3vec img.direction (s.1 * i, s.2.1 * j, s.2.2 * k)
  (img.origin.1 + d.1, img.origin.2.1 + d.2.1, img.origin.2.2 + d.2.2)

/-- Continuous index of a physical point in an image: the inverse of the
index-to-physical map, componentwise division by the spacing after applying
the inverse direction matrix. -/
def contIndex (img : Image) (p : ℚ × ℚ × ℚ) : ℚ × ℚ × ℚ :=
  let o := img.origin
  let d := mat3vec (inv3 img.direction) (p.1 - o.1, p.2.1 - o.2.1, p.2.2 - o.2.2)
  (d.1 / img.spacing.1, d.2.1 / img.spacing.2.1, d.2.2 / img.spacing.2.2)

/-- Whether a continuous index lies inside the interpolatable support of a
voxel array: every component between 0 and extent - 1. -/
def insideSupport (a : Arr3) (c : ℚ × ℚ × ℚ) : Prop :=
  0 ≤ c.1 ∧ c.1 ≤ (a.d0 : ℚ) - 1 ∧
    0 ≤ c.2.1 ∧ c.2.1 ≤ (a.d1 : ℚ) - 1 ∧
    0 ≤ c.2.2 ∧ c.2.2 ≤ (a.d2 : ℚ) - 1

instance insideSupportDecidable (a : Arr3) (c : ℚ × ℚ × ℚ) :
    Decidable (insideSupport a c) := by
  unfold insideSupport
  infer_instance

/-- Linear interpolation between two values with weight f. -/
def lerp (a b f : ℚ) : ℚ := (1 - f) * a + f * b

/-- Trilinear interpolation of a voxel array at a continuous index, the
linear interpolator of the resampler: the eight surrounding voxels blended
with the fractional parts of the index. -/
def trilinear (a : Arr3) (c : ℚ × ℚ × ℚ) : ℚ :=
  let i0 := ⌊c.1⌋
  let j0 := ⌊c.2.1⌋
  let k0 := ⌊c.2.2⌋
  let fx := c.1 - i0
  let fy := c.2.1 - j0
  let fz := c.2.2 - k0
  let v : ℕ → ℕ → ℕ → ℚ := fun di dj dk =>
    a.val (i0.toNat + di) (j0.toNat + dj) (k0.toNat + dk)
  lerp (lerp (lerp (v 0 0 0) (v 0 0 1) fz) (lerp (v 0 1 0) (v 0 1 1) fz) fy)
    (lerp (lerp (v 1 0 0) (v 1 0 1) fz) (lerp (v 1 1 0) (v 1 1 1) fz) fy) fx

/-- Nearest-neighbour interpolation at a continuous index (each component
rounded), the other interpolator the resampler offers. -/
def nearestNeighbor (a : Arr3) (c : ℚ × ℚ × ℚ) : ℚ :=
  a.val (⌊c.1 + 1/2⌋.toNat) (⌊c.2.1 + 1/2⌋.toNat) (⌊c.2.2 + 1/2⌋.toNat)

/-- Interpolator selector passed to sitk.Resample. -/
inductive Interpolator where
  | sitkLinear : Interpolator
  | sitkNearestNeighbor : Interpolator

/-- Value of an interpolator on an array at a continuous index. -/
def interpolate : Interpolator → Arr3 → ℚ × ℚ × ℚ → ℚ
  | .sitkLinear, a, c => trilinear a c
  | .sitkNearestNeighbor, a, c => nearestNeighbor a c

/-- Modelled from library semantics: sitk.Resample(moving, fixed, transform,
interpolator, defaultValue, outputPixelID).  The output grid is the fixed
(reference) image's grid: same extents, spacing, origin and direction.  Each
output voxel maps its physical point through the transform into the moving
image's physical space, converts it to a continuous index of the moving
image and interpolates there; a point outside the moving image's support
gets the default value. -/
def Resample (moving fixed : Image) (transform : VersorRigidParams)
    (interp : Interpolator) (defaultValue : ℚ) (outputPixelID : ℕ) : Image :=
  { arr := ⟨fixed.arr.d0, fixed.arr.d1, fixed.arr.d2, fun i j k =>
      let c := contIndex moving (transformPoint transform (physPoint fixed i j k))
      if insideSupport moving.arr c then interpolate interp moving.arr c
      else defaultValue⟩,
    spacing := fixed.spacing, origin := fixed.origin,
    direction := fixed.direction, pixelID := outputPixelID }

/-- Embeds apply_transform: builds a VersorRigid3DTransform from the input
parameter vector and resamples the moving image onto the fixed image's grid
with linear interpolation, default value 0.0 and the fixed image's pixel
type, exactly the source's Resample call. -/
def apply_transform (moving_image fixed_image : Image)
    (transform_params : VersorRigidParams) : Image :=
  Resample moving_image fixed_image transform_params .sitkLinear 0
    fixed_image.pixelID

/-- The caller-visible state of one apply_transform invocation: the two
input images and the parameter vector.  The source's only mutation is
SetParameters on the locally constructed transform object; the inputs are
never the target of a mutating call, so the embedding threads them through
explicitly and returns them alongside the produced image. -/
structure ApplyEnv where
  moving : Image
  fixed : Image
  params : VersorRigidParams

/-- State-passing form of apply_transform: consumes the environment holding
the inputs and returns it together with the produced image. -/
def apply_transform_run (e : ApplyEnv) : ApplyEnv × Image :=
  (e, apply_transform e.moving e.fixed e.params)

theorem rotate_axes_arr_twice_val (a : Arr3) (i j k : ℕ) :
    (rotate_axes_arr (rotate_axes_arr a)).val i j k
      = toUint8 (a.val (a.d0 - 1 - i) (a.d1 - 1 - j) k) :=
  toUint8_idem _

/-- Concrete two-voxel array (extents 2 x 1 x 1, values 0 and 1 along the
first axis) on which the swap-and-flip is applied twice. -/
def cexArrC2 : Arr3 := ⟨2, 1, 1, fun i _ _ => ((min i 1 : ℕ) : ℚ)⟩

/-- C2 counterexample: applying the axis swap-and-flip of
rotate_axes_to_microscope twice to the 2 x 1 x 1 array with voxels (0, 1)
gives back an array of the same extents whose voxel [0,0,0] is 1, not the
original 0 — and both values are fixed points of the uint8 cast, so no
bit-depth cast explains the difference.  The double application is a
180-degree rotation of the first two axes, not the identity. -/
theorem c2_swap_flip_twice_counterexample :
    (rotate_axes_arr (rotate_axes_arr cexArrC2)).d0 = cexArrC2.d0 ∧
      (rotate_axes_arr (rotate_axes_arr cexArrC2)).d1 = cexArrC2.d1 ∧
      (rotate_axes_arr (rotate_axes_arr cexArrC2)).d2 = cexArrC2.d2 ∧
      cexArrC2.val 0 0 0 = 0 ∧
      (rotate_axes_arr (rotate_axes_arr cexArrC2)).val 0 0 0 = 1 ∧
      toUint8 0 = 0 ∧ toUint8 1 = 1 ∧
      (rotate_axes_arr (rotate_axes_arr cexArrC2)).val 0 0 0 ≠ cexArrC2.val 0 0 0 := by
  refine ⟨rfl, rfl, rfl, ?_, ?_, ?_, ?_, ?_⟩ <;> decide

/-- C2 amended: the swap-and-flip of rotate_axes_to_microscope is not an
involution; applying it twice yields the 180-degree rotation of the voxel
data in the first two axes (output voxel [i,j,k] holds input voxel
[d0-1-i, d1-1-j, k]), and applying it four times returns the original voxel
data, in both cases modulo the uint8 bit-depth cast. -/
theorem c2_swap_flip_four_is_identity :
    ∀ a : Arr3,
      (∀ i j k : ℕ,
        (rotate_axes_arr (rotate_axes_arr a)).val i j k
          = toUint8 (a.val (a.d0 - 1 - i) (a.d1 - 1 - j) k)) ∧
      (∀ i j k : ℕ, i < a.d0 → j < a.d1 →
        (rotate_axes_arr (rotate_axes_arr (rotate_axes_arr (rotate_axes_arr a)))).val
            i j k
          = toUint8 (a.val i j k)) := by
  intro a
  refine ⟨fun i j k => rotate_axes_arr_twice_val a i j k, ?_⟩
  intro i j k hi hj
  have e1 := rotate_axes_arr_twice_val (rotate_axes_arr (rotate_axes_arr a)) i j k
  have hd0 : (rotate_axes_arr (rotate_axes_arr a)).d0 = a.d0 := rfl
  have hd1 : (rotate_axes_arr (rotate_axes_arr a)).d1 = a.d1 := rfl
  rw [hd0, hd1] at e1
  have e2 := rotate_axes_arr_twice_val a (a.d0 - 1 - i) (a.d1 - 1 - j) k
  have h1 : a.d0 - 1 - (a.d0 - 1 - i) = i := by omega
  have h2 : a.d1 - 1 - (a.d1 - 1 - j) = j := by omega
  rw [h1, h2] at e2
  rw [e1, e2]
  exact toUint8_idem _

/-- C2 witness: the four-fold application law evaluated on the concrete
2 x 1 x 1 array at the in-bounds voxel [1,0,0]. -/
theorem c2_swap_flip_four_is_identity_witness :
    (rotate_axes_arr (rotate_axes_arr (rotate_axes_arr (rotate_axes_arr cexArrC2)))).val
        1 0 0
      = toUint8 (cexArrC2.val 1 0 0) :=
  (c2_swap_flip_four_is_identity cexArrC2).2 1 0 0 (by decide) (by decide)

/-- C9: the axis rotation of rotate_axes_to_microscope sends an array of
extents (d0, d1, d2) to one of extents (d1, d0, d2) whose voxel [i, j, k] is
the input voxel [j, d1-1-i, k] — a 90-degree rotation in the first two
axes — first through the uint8 cast in general, and exactly whenever the
input voxels are already unsigned 8-bit values. -/
theorem c9_rotation_index_map :
    ∀ a : Arr3,
      ((rotate_axes_arr a).d0 = a.d1 ∧ (rotate_axes_arr a).d1 = a.d0 ∧
        (rotate_axes_arr a).d2 = a.d2) ∧
      (∀ i j k : ℕ,
        (rotate_axes_arr a).val i j k = toUint8 (a.val j (a.d1 - 1 - i) k)) ∧
      ((∀ i j k : ℕ, IsUint8Val (a.val i j k)) →
        ∀ i j k : ℕ, (rotate_axes_arr a).val i j k = a.val j (a.d1 - 1 - i) k) :=
  fun a =>
    ⟨⟨rfl, rfl, rfl⟩, fun _ _ _ => rfl,
      fun h i j k => toUint8_of_isUint8 (h j (a.d1 - 1 - i) k)⟩

/-- Concrete 2 x 3 x 1 array with 8-bit voxel values used to instantiate the
rotation index map. -/
def arrC9 : Arr3 := ⟨2, 3, 1, fun i j _ => ((min (i + 10 * j) 255 : ℕ) : ℚ)⟩

/-- C9 witness: the index map evaluated on a concrete 2 x 3 x 1 array of
8-bit values — voxel [0,0,0] of the rotated array is input voxel [0,2,0]. -/
theorem c9_rotation_index_map_witness :
    (rotate_axes_arr arrC9).val 0 0 0 = arrC9.val 0 (arrC9.d1 - 1 - 0) 0 ∧
      (rotate_axes_arr arrC9).val 0 0 0 = 20 :=
  ⟨(c9_rotation_index_map arrC9).2.2
      (fun i j _ => ⟨min (i + 10 * j) 255, by omega, rfl⟩) 0 0 0,
    by decide⟩

/-- Concrete one-voxel raw image whose single intensity 300 exceeds the
unsigned 8-bit range, fed through the ultrasound construction path with the
identity window map. -/
def rawC10 : Image :=
  ⟨⟨1, 1, 1, fun _ _ _ => 300⟩, (1, 1, 1), (0, 0, 0), 1, 3⟩

/-- C10: every image produced by the ultrasound construction path open_us
has voxel data cast to unsigned 8-bit integers — each voxel value is a
natural number below 256 and the pixel type is sitkUInt8 — regardless of the
input image's values or pixel type; concretely, a raw intensity 300 leaves
the path as 300 mod 256 = 44, truncated by the cast. -/
theorem c10_open_us_uint8_cast :
    (∀ (raw : Image) (wf : ℚ → ℚ) (spacing origin : ℚ × ℚ × ℚ) (i j k : ℕ),
      IsUint8Val ((open_us raw wf spacing origin).arr.val i j k)) ∧
      (∀ (raw : Image) (wf : ℚ → ℚ) (spacing origin : ℚ × ℚ × ℚ),
        (open_us raw wf spacing origin).pixelID = sitkUInt8) ∧
      rawC10.arr.val 0 0 0 = 300 ∧ rawC10.pixelID = 3 ∧
      (open_us rawC10 id (1, 1, 1) (0, 0, 0)).arr.val 0 0 0 = 44 := by
  refine ⟨fun raw wf spacing origin i j k => toUint8_isUint8 _,
    fun raw wf spacing origin => rfl, rfl, rfl, ?_⟩
  decide

theorem foldl_minRow2_le (r : List (ℚ × ℚ)) :
    ∀ a : ℚ × ℚ, (r.foldl minRow2 a).1 ≤ a.1 ∧ (r.foldl minRow2 a).2 ≤ a.2 ∧
      ∀ q ∈ r, (r.foldl minRow2 a).1 ≤ q.1 ∧ (r.foldl minRow2 a).2 ≤ q.2 := by
  induction r with
  | nil => exact fun a => ⟨le_refl _, le_refl _, by simp⟩
  | cons q r ih =>
    intro a
    have h := ih (minRow2 a q)
    refine ⟨h.1.trans (min_le_left _ _), h.2.1.trans (min_le_left _ _), ?_⟩
    intro q' hq'
    rcases List.mem_cons.mp hq' with h' | h'
    · subst h'
      exact ⟨h.1.trans (min_le_right _ _), h.2.1.trans (min_le_right _ _)⟩
    · exact h.2.2 q' h'

theorem foldl_minRow2_mem (r : List (ℚ × ℚ)) :
    ∀ a : ℚ × ℚ,
      ((r.foldl minRow2 a).1 = a.1 ∨ (r.foldl minRow2 a).1 ∈ r.map Prod.fst) ∧
      ((r.foldl minRow2 a).2 = a.2 ∨ (r.foldl minRow2 a).2 ∈ r.map Prod.snd) := by
  induction r with
  | nil => exact fun a => ⟨Or.inl rfl, Or.inl rfl⟩
  | cons q r ih =>
    intro a
    have h := ih (minRow2 a q)
    constructor
    · rcases h.1 with h' | h'
      · rcases min_choice a.1 q.1 with hm | hm
        · exact Or.inl (h'.trans hm)
        · exact Or.inr (by simp only [List.map_cons, List.mem_cons]; exact Or.inl (h'.trans hm))
      · exact Or.inr (by simp only [List.map_cons, List.mem_cons]; exact Or.inr h')
    · rcases h.2 with h' | h'
      · rcases min_choice a.2 q.2 with hm | hm
        · exact Or.inl (h'.trans hm)
        · exact Or.inr (by simp only [List.map_cons, List.mem_cons]; exact Or.inl (h'.trans hm))
      · exact Or.inr (by simp only [List.map_cons, List.mem_cons]; exact Or.inr h')

/-- C4: on every raw position list whose cleaned form is non-empty,
get_xy_origin succeeds with the component-wise minimum of the parsed (x, y)
pairs — a lower bound of every pair, each of whose components is attained —
and on the list [(1,5),(3,2),(0,9)] it returns (0,2). -/
theorem c4_get_xy_origin_componentwise_min :
    (∀ l : List PosEntry, clean_position_text l ≠ [] →
      ∃ m : ℚ × ℚ, get_xy_origin l = .ok m ∧
        (∀ p ∈ clean_position_text l, m.1 ≤ p.1 ∧ m.2 ≤ p.2) ∧
        m.1 ∈ (clean_position_text l).map Prod.fst ∧
        m.2 ∈ (clean_position_text l).map Prod.snd) ∧
      get_xy_origin [.num 1 5, .num 3 2, .num 0 9] = .ok (0, 2) := by
  constructor
  · intro l hl
    rcases hc : clean_position_text l with _ | ⟨p, r⟩
    · exact absurd hc hl
    refine ⟨r.foldl minRow2 p, ?_, ?_, ?_, ?_⟩
    · unfold get_xy_origin
      rw [hc]
      rfl
    · intro q hq
      rcases List.mem_cons.mp hq with h' | h'
      · rw [h']
        exact ⟨(foldl_minRow2_le r p).1, (foldl_minRow2_le r p).2.1⟩
      · exact (foldl_minRow2_le r p).2.2 q h'
    · rcases (foldl_minRow2_mem r p).1 with h' | h'
      · simp only [List.map_cons, List.mem_cons]
        exact Or.inl h'
      · simp only [List.map_cons, List.mem_cons]
        exact Or.inr h'
    · rcases (foldl_minRow2_mem r p).2 with h' | h'
      · simp only [List.map_cons, List.mem_cons]
        exact Or.inl h'
      · simp only [List.map_cons, List.mem_cons]
        exact Or.inr h'
  · rfl

/-- C4 witness: the component-wise-minimum law instantiated on the concrete
list [(1,5),(3,2),(0,9)], whose cleaned form is non-empty. -/
theorem c4_get_xy_origin_componentwise_min_witness :
    ∃ m : ℚ × ℚ, get_xy_origin [.num 1 5, .num 3 2, .num 0 9] = .ok m ∧
      (∀ p ∈ clean_position_text [.num 1 5, .num 3 2, .num 0 9],
        m.1 ≤ p.1 ∧ m.2 ≤ p.2) ∧
      m.1 ∈ (clean_position_text [.num 1 5, .num 3 2, .num 0 9]).map Prod.fst ∧
      m.2 ∈ (clean_position_text [.num 1 5, .num 3 2, .num 0 9]).map Prod.snd :=
  c4_get_xy_origin_componentwise_min.1 [.num 1 5, .num 3 2, .num 0 9] (by decide)

theorem clean_position_text_strips (pre post : List PosEntry) :
    clean_position_text (pre ++ .malformed :: post)
      = clean_position_text (pre ++ post) := by
  unfold clean_position_text
  simp [List.filterMap_append, List.filterMap_cons]

theorem positions_from_ometif_error_of_mem :
    ∀ imgs : List OmeImage, ∀ p ∈ imgs, ∀ e, omePosition p = .error e →
      ∃ e', positions_from_ometif imgs = .error e' := by
  intro imgs
  induction imgs with
  | nil => intro p hp; exact absurd hp (List.not_mem_nil p)
  | cons a l ih =>
    intro p hp e he
    rcases List.mem_cons.mp hp with h' | h'
    · rw [h'] at he
      exact ⟨e, by unfold positions_from_ometif; rw [he]⟩
    · obtain ⟨e', he'⟩ := ih p h' e he
      rcases ha : omePosition a with e₀ | x
      · exact ⟨e₀, by unfold positions_from_ometif; rw [ha]⟩
      · exact ⟨e', by unfold positions_from_ometif; rw [ha, he']⟩

theorem positions_from_ometif_ok_sound :
    ∀ (imgs : List OmeImage) (res : List (ℚ × ℚ × ℚ)),
      positions_from_ometif imgs = .ok res →
      ∀ p ∈ imgs, ∃ x, omePosition p = .ok x := by
  intro imgs
  induction imgs with
  | nil => intro res _ p hp; exact absurd hp (List.not_mem_nil p)
  | cons a l ih =>
    intro res h p hp
    unfold positions_from_ometif at h
    rcases ha : omePosition a with e | x
    · rw [ha] at h
      exact absurd h (by simp)
    · rw [ha] at h
      rcases hl : positions_from_ometif l with e | xs
      · rw [hl] at h
        exact absurd h (by simp)
      · rcases List.mem_cons.mp hp with h' | h'
        · exact ⟨x, by rw [h']; exact ha⟩
        · exact ih xs hl p h'

/-- C7 counterexample: the position list [(1,5), malformed] contains a
non-numeric entry, yet get_xy_origin does not surface a parse error — it
returns the origin (1,5) computed from the surviving entries, exactly as it
does on the list with the malformed entry absent. -/
theorem c7_error_raising_counterexample :
    get_xy_origin [.num 1 5, .malformed] = .ok (1, 5) ∧
      get_xy_origin [.num 1 5, .malformed] = get_xy_origin [.num 1 5] :=
  ⟨rfl, rfl⟩

/-- C7 amended: a malformed (non-numeric) position-list entry is stripped by
the cleaning step, and the origin is computed from the remaining entries — a
partial result, not a parse error; the OME-XML half of the claim does hold:
an Image entry with a missing expected field makes positions_from_ometif
fail with that error, and it only succeeds when every entry parses (no
partial-result recovery). -/
theorem c7_amended_error_handling :
    (∀ pre post : List PosEntry,
      get_xy_origin (pre ++ .malformed :: post) = get_xy_origin (pre ++ post)) ∧
      (∀ imgs : List OmeImage, ∀ p ∈ imgs, ∀ e, omePosition p = .error e →
        ∃ e', positions_from_ometif imgs = .error e') ∧
      (∀ (imgs : List OmeImage) (res : List (ℚ × ℚ × ℚ)),
        positions_from_ometif imgs = .ok res →
        ∀ p ∈ imgs, ∃ x, omePosition p = .ok x) :=
  ⟨fun pre post => by
      unfold get_xy_origin
      rw [clean_position_text_strips],
    positions_from_ometif_error_of_mem, positions_from_ometif_ok_sound⟩

/-- OME Image entry with every expected field missing. -/
def badOme : OmeImage := ⟨none, none⟩

/-- C7 witness: the stripping law on a concrete malformed position list, and
the error propagation on a concrete OME entry missing its StageLabel. -/
theorem c7_amended_error_handling_witness :
    get_xy_origin ([.num 1 5] ++ .malformed :: [.num 0 9])
        = get_xy_origin ([.num 1 5] ++ [.num 0 9]) ∧
      ∃ e', positions_from_ometif [badOme] = .error e' :=
  ⟨c7_amended_error_handling.1 [.num 1 5] [.num 0 9],
    c7_amended_error_handling.2.1 [badOme] badOme (by simp)
      "KeyError: StageLabel" rfl⟩

theorem open_mpm_ok_direction (raw : Image) (ome : List OmeImage)
    (sp : ℚ × ℚ × ℚ) (img : Image) (h : open_mpm raw ome sp = .ok img) :
    img.spacing = sp ∧ img.direction = zMirror := by
  unfold open_mpm at h
  split at h
  · exact absurd h (by simp)
  · split at h
    · exact absurd h (by simp)
    · simp only [Except.ok.injEq] at h
      subst h
      exact ⟨rfl, rfl⟩

/-- Concrete one-voxel raw microscopy image. -/
def rawMpm : Image := ⟨⟨1, 1, 1, fun _ _ _ => 0⟩, (1, 1, 1), (0, 0, 0), 1, 2⟩

/-- Concrete OME Image entry with all expected fields present. -/
def goodOme : OmeImage := ⟨some ⟨some 3, some 4⟩, some [⟨some 5⟩]⟩

/-- The image open_mpm produces from rawMpm, goodOme and spacing (2,2,25). -/
def mpmResult : Image :=
  { rawMpm with spacing := (2, 2, 25), origin := (3, 4, 5), direction := zMirror }

/-- C5: both construction paths install the fixed direction cosine matrix
diag(1,1,-1) — open_us always, open_mpm whenever it succeeds — and that
matrix is orthonormal with determinant -1. -/
theorem c5_direction_is_z_mirror :
    (∀ (raw : Image) (wf : ℚ → ℚ) (spacing origin : ℚ × ℚ × ℚ),
      (open_us raw wf spacing origin).direction = zMirror) ∧
      (∀ (raw : Image) (ome : List OmeImage) (sp : ℚ × ℚ × ℚ) (img : Image),
        open_mpm raw ome sp = .ok img → img.direction = zMirror) ∧
      zMirror.transpose * zMirror = 1 ∧ zMirror.det = -1 := by
  refine ⟨fun _ _ _ _ => rfl,
    fun raw ome sp img h => (open_mpm_ok_direction raw ome sp img h).2, ?_, ?_⟩
  · have ht : zMirror.transpose = zMirror := by
      ext i j
      fin_cases i <;> fin_cases j <;> rfl
    rw [ht]
    unfold zMirror
    rw [Matrix.mul_fin_three, Matrix.one_fin_three]
    norm_num
  · simp [Matrix.det_fin_three, zMirror]

/-- C5 witness: the microscopy path evaluated on a concrete raw image and a
complete OME entry yields an image whose direction is the Z mirror. -/
theorem c5_direction_is_z_mirror_witness : mpmResult.direction = zMirror :=
  c5_direction_is_z_mirror.2.1 rawMpm [goodOme] (2, 2, 25) mpmResult rfl

/-- C6: both construction paths accept an explicitly supplied spacing vector
and, when its components are strictly positive, store it unchanged in the
output image's spacing field (open_mpm whenever it succeeds). -/
theorem c6_spacing_preserved :
    (∀ (raw : Image) (wf : ℚ → ℚ) (spacing origin : ℚ × ℚ × ℚ),
      0 < spacing.1 → 0 < spacing.2.1 → 0 < spacing.2.2 →
      (open_us raw wf spacing origin).spacing = spacing) ∧
      (∀ (raw : Image) (ome : List OmeImage) (sp : ℚ × ℚ × ℚ) (img : Image),
        0 < sp.1 → 0 < sp.2.1 → 0 < sp.2.2 →
        open_mpm raw ome sp = .ok img → img.spacing = sp) :=
  ⟨fun _ _ _ _ _ _ _ => rfl,
    fun raw ome sp img _ _ _ h => (open_mpm_ok_direction raw ome sp img h).1⟩

/-- C6 witness: the spacing-preservation law evaluated on concrete strictly
positive spacings through both construction paths. -/
theorem c6_spacing_preserved_witness :
    (open_us rawMpm id (25, 25, 25) (0, 0, 0)).spacing = (25, 25, 25) ∧
      mpmResult.spacing = (2, 2, 25) :=
  ⟨c6_spacing_preserved.1 rawMpm id (25, 25, 25) (0, 0, 0) (by norm_num)
      (by norm_num) (by norm_num),
    c6_spacing_preserved.2 rawMpm [goodOme] (2, 2, 25) mpmResult (by norm_num)
      (by norm_num) (by norm_num) rfl⟩

theorem star_mul_self_of_unit {q : Quaternion ℚ} (h : Quaternion.normSq q = 1) :
    star q * q = 1 := by
  rw [Quaternion.star_mul_self, h]
  exact_mod_cast rfl

/-- Concrete unit versor: a 180-degree rotation about the Z axis. -/
def qC1 : Quaternion ℚ := ⟨0, 0, 0, 1⟩

/-- Concrete translation along the X axis. -/
def tC1 : Quaternion ℚ := ⟨0, 1, 0, 0⟩

theorem trueInverse_leftInverse (q t x : Quaternion ℚ)
    (h : Quaternion.normSq q = 1) :
    trueInverseApply q t (versorRigidApply q t x) = x := by
  have hq := star_mul_self_of_unit h
  unfold trueInverseApply versorRigidApply versorRot
  rw [star_star, add_sub_cancel_right]
  have ha : star q * (q * x * star q) * q = star q * q * x * (star q * q) := by
    noncomm_ring
  rw [ha, hq, one_mul, mul_one]

theorem negatedParams_eq_trueInverse_iff (q t : Quaternion ℚ)
    (_h : Quaternion.normSq q = 1) :
    (∀ x, negatedParamsApply q t x = trueInverseApply q t x) ↔
      versorRot (star q) t = t := by
  constructor
  · intro hall
    have ht := hall t
    unfold negatedParamsApply trueInverseApply versorRot at ht
    simp only [star_star] at ht
    rw [sub_self, mul_zero, zero_mul, add_neg_eq_zero] at ht
    unfold versorRot
    simp only [star_star]
    exact ht
  · intro hfix x
    unfold versorRot at hfix
    simp only [star_star] at hfix
    unfold negatedParamsApply trueInverseApply versorRot
    simp only [star_star]
    have hd : star q * (x - t) * q = star q * x * q - star q * t * q := by
      noncomm_ring
    rw [hd, hfix]
    noncomm_ring

/-- C1: for a unit versor, composing the true inverse (inverse rotation with
translation -(R⁻¹ t)) after the forward rigid transform is the identity; the
transform built by negating all six parameters agrees with that true inverse
exactly when the inverse rotation fixes the translation (so in particular
when the rotation is the identity), and on the concrete 180-degree rotation
about Z with a translation along X it fails to invert the forward map. -/
theorem c1_negated_params_inverse_only_special :
    (∀ q t x : Quaternion ℚ, Quaternion.normSq q = 1 →
      trueInverseApply q t (versorRigidApply q t x) = x) ∧
      (∀ q t : Quaternion ℚ, Quaternion.normSq q = 1 →
        ((∀ x, negatedParamsApply q t x = trueInverseApply q t x) ↔
          versorRot (star q) t = t)) ∧
      (∀ t x : Quaternion ℚ,
        negatedParamsApply 1 t (versorRigidApply 1 t x) = x) ∧
      (Quaternion.normSq qC1 = 1 ∧
        negatedParamsApply qC1 tC1 (versorRigidApply qC1 tC1 0) ≠ 0 ∧
        trueInverseApply qC1 tC1 (versorRigidApply qC1 tC1 0) = 0) := by
  refine ⟨trueInverse_leftInverse, negatedParams_eq_trueInverse_iff,
    fun t x => ?_, ?_, ?_, ?_⟩
  · unfold negatedParamsApply versorRigidApply versorRot
    simp
  · simp [Quaternion.normSq_def', qC1]
  · have hval : (negatedParamsApply qC1 tC1 (versorRigidApply qC1 tC1 0)).imI = -2 := by
      unfold negatedParamsApply versorRigidApply versorRot qC1 tC1
      simp [Quaternion.mul_imI, Quaternion.mul_re, Quaternion.mul_imJ,
        Quaternion.mul_imK]
      norm_num
    intro hzero
    rw [hzero] at hval
    simp at hval
  · unfold trueInverseApply versorRigidApply versorRot
    simp

/-- C1 witness: the true inverse undoes the concrete forward transform
(unit-norm hypothesis discharged on the concrete versor), and parameter
negation does invert the forward map when the rotation is the identity. -/
theorem c1_negated_params_inverse_only_special_witness :
    trueInverseApply qC1 tC1 (versorRigidApply qC1 tC1 0) = 0 ∧
      negatedParamsApply 1 tC1 (versorRigidApply 1 tC1 tC1) = tC1 :=
  ⟨c1_negated_params_inverse_only_special.1 qC1 tC1 0
      (by simp [Quaternion.normSq_def', qC1]),
    c1_negated_params_inverse_only_special.2.2.1 tC1 tC1⟩

theorem trilinear_at_integer_index (a : Arr3) (i j k : ℕ) :
    trilinear a ((i : ℚ), (j : ℚ), (k : ℚ)) = a.val i j k := by
  unfold trilinear lerp
  simp [Int.floor_natCast, Int.toNat_natCast]

/-- C3: apply_transform resamples the moving image onto the voxel grid of
the fixed image — the output has the fixed image's extents, spacing, origin,
direction and pixel type — computing each output voxel by linear (trilinear)
interpolation of the moving image at the transformed grid point, with
background value 0 wherever that point falls outside the moving image's
support; the interpolator reproduces the moving image's own voxel values at
integer continuous indices. -/
theorem c3_apply_transform_fixed_grid :
    (∀ (moving fixed : Image) (T : VersorRigidParams),
      ((apply_transform moving fixed T).arr.d0 = fixed.arr.d0 ∧
        (apply_transform moving fixed T).arr.d1 = fixed.arr.d1 ∧
        (apply_transform moving fixed T).arr.d2 = fixed.arr.d2) ∧
        (apply_transform moving fixed T).spacing = fixed.spacing ∧
        (apply_transform moving fixed T).origin = fixed.origin ∧
        (apply_transform moving fixed T).direction = fixed.direction ∧
        (apply_transform moving fixed T).pixelID = fixed.pixelID) ∧
      (∀ (moving fixed : Image) (T : VersorRigidParams) (i j k : ℕ),
        ¬ insideSupport moving.arr
            (contIndex moving (transformPoint T (physPoint fixed i j k))) →
          (apply_transform moving fixed T).arr.val i j k = 0) ∧
      (∀ (moving fixed : Image) (T : VersorRigidParams) (i j k : ℕ),
        insideSupport moving.arr
            (contIndex moving (transformPoint T (physPoint fixed i j k))) →
          (apply_transform moving fixed T).arr.val i j k
            = trilinear moving.arr
                (contIndex moving (transformPoint T (physPoint fixed i j k)))) ∧
      (∀ (a : Arr3) (i j k : ℕ),
        trilinear a ((i : ℚ), (j : ℚ), (k : ℚ)) = a.val i j k) := by
  refine ⟨fun moving fixed T => ⟨⟨rfl, rfl, rfl⟩, rfl, rfl, rfl, rfl⟩,
    fun moving fixed T i j k h => ?_, fun moving fixed T i j k h => ?_,
    trilinear_at_integer_index⟩
  · show (if insideSupport moving.arr
        (contIndex moving (transformPoint T (physPoint fixed i j k))) then _
      else _) = _
    rw [if_neg h]
  · show (if insideSupport moving.arr
        (contIndex moving (transformPoint T (physPoint fixed i j k))) then _
      else _) = _
    rw [if_pos h]
    rfl

/-- Concrete one-voxel moving image with intensity 7 on the canonical unit
grid. -/
def movC3 : Image := ⟨⟨1, 1, 1, fun _ _ _ => 7⟩, (1, 1, 1), (0, 0, 0), 1, 1⟩

/-- Concrete one-voxel fixed image on the canonical unit grid with a
different pixel type. -/
def fixC3 : Image := ⟨⟨1, 1, 1, fun _ _ _ => 0⟩, (1, 1, 1), (0, 0, 0), 1, 2⟩

/-- Identity transform parameters (identity versor, zero translation). -/
def idParams : VersorRigidParams := ⟨0, 0, 0, 1, 0, 0, 0⟩

/-- Pure-translation parameters moving everything by 5 along each axis. -/
def shiftParams : VersorRigidParams := ⟨0, 0, 0, 1, 5, 5, 5⟩

theorem inv3_one : inv3 (1 : Matrix (Fin 3) (Fin 3) ℚ) = 1 := by
  unfold inv3 det3
  rw [Matrix.one_fin_three]
  norm_num [Matrix.vecHead, Matrix.vecTail]

theorem physPoint_canonical (img : Image) (i j k : ℕ)
    (hd : img.direction = 1) (hs : img.spacing = (1, 1, 1))
    (ho : img.origin = (0, 0, 0)) :
    physPoint img i j k = ((i : ℚ), (j : ℚ), (k : ℚ)) := by
  unfold physPoint mat3vec
  rw [hd, Matrix.one_fin_three, hs, ho]
  norm_num [Matrix.vecHead, Matrix.vecTail]

theorem contIndex_canonical (img : Image) (p : ℚ × ℚ × ℚ)
    (hd : img.direction = 1) (hs : img.spacing = (1, 1, 1))
    (ho : img.origin = (0, 0, 0)) :
    contIndex img p = p := by
  unfold contIndex mat3vec
  rw [hd, inv3_one, Matrix.one_fin_three, hs, ho]
  norm_num [Matrix.vecHead, Matrix.vecTail]

/-- C3 witness: under the identity transform the single fixed voxel lands
inside the moving support and receives the interpolated moving value, and
under a translation by 5 it falls outside and receives the background 0. -/
theorem c3_apply_transform_fixed_grid_witness :
    (apply_transform movC3 fixC3 idParams).arr.val 0 0 0
        = trilinear movC3.arr
            (contIndex movC3 (transformPoint idParams (physPoint fixC3 0 0 0))) ∧
      (apply_transform movC3 fixC3 shiftParams).arr.val 0 0 0 = 0 := by
  have hphys : physPoint fixC3 0 0 0 = (0, 0, 0) := by
    rw [physPoint_canonical fixC3 0 0 0 rfl rfl rfl]
    norm_num
  have hid : transformPoint idParams (0, 0, 0) = (0, 0, 0) := by
    unfold transformPoint versorRot quatOf idParams
    simp [Quaternion.mul_re, Quaternion.mul_imI, Quaternion.mul_imJ,
      Quaternion.mul_imK]
  have hshift : transformPoint shiftParams (0, 0, 0) = (5, 5, 5) := by
    unfold transformPoint versorRot quatOf shiftParams
    simp [Quaternion.mul_re, Quaternion.mul_imI, Quaternion.mul_imJ,
      Quaternion.mul_imK]
  have hci0 : contIndex movC3 (0, 0, 0) = (0, 0, 0) :=
    contIndex_canonical movC3 (0, 0, 0) rfl rfl rfl
  have hci5 : contIndex movC3 (5, 5, 5) = (5, 5, 5) :=
    contIndex_canonical movC3 (5, 5, 5) rfl rfl rfl
  constructor
  · refine c3_apply_transform_fixed_grid.2.2.1 movC3 fixC3 idParams 0 0 0 ?_
    rw [hphys, hid, hci0]
    unfold insideSupport movC3
    norm_num
  · refine c3_apply_transform_fixed_grid.2.1 movC3 fixC3 shiftParams 0 0 0 ?_
    rw [hphys, hshift, hci5]
    unfold insideSupport movC3
    norm_num

/-- C8: one run of apply_transform returns a fresh resampled image and
leaves its inputs untouched: the environment comes back unchanged — in
particular the voxel data, spacing, origin and direction of both input
images and the parameter vector — and the produced image is exactly the
resampling of those inputs. -/
theorem c8_apply_transform_no_mutation :
    ∀ e : ApplyEnv,
      (apply_transform_run e).1 = e ∧
        (apply_transform_run e).1.moving.arr.val = e.moving.arr.val ∧
        (apply_transform_run e).1.moving.spacing = e.moving.spacing ∧
        (apply_transform_run e).1.moving.origin = e.moving.origin ∧
        (apply_transform_run e).1.moving.direction = e.moving.direction ∧
        (apply_transform_run e).1.fixed.arr.val = e.fixed.arr.val ∧
        (apply_transform_run e).1.fixed.spacing = e.fixed.spacing ∧
        (apply_transform_run e).1.fixed.origin = e.fixed.origin ∧
        (apply_transform_run e).1.fixed.direction = e.fixed.direction ∧
        (apply_transform_run e).1.params = e.params ∧
        (apply_transform_run e).2 = apply_transform e.moving e.fixed e.params :=
  fun _ => ⟨rfl, rfl, rfl, rfl, rfl, rfl, rfl, rfl, rfl, rfl, rfl⟩

end Phantom
